import Mathlib

/-!
A verification development for the shared-log subsystem of a local
inter-process coordination server (ContextFlowMCP, `server.mjs` and
`lib/common.mjs`).

The JavaScript source is shallowly embedded: pure functions become Lean
functions, the filesystem and wall clock become explicit observation
parameters, and host services that the code calls out to (the JSON parser
`JSON.parse` and the date parser `Date.parse`) become function parameters
of the embedding.  Machine-level details that the claims do not touch are
noted where they are abstracted:

* JS strings are UTF-16; we use Lean `String`/`List Char`.  Lexicographic
  comparison by UTF-16 code unit coincides with comparison by code point
  for all characters in the basic multilingual plane.
* `Date.parse` and `new Date(ms).toISOString()` are host functions,
  modelled by a `DateEnv` parameter (`none` models `NaN`).
* JS numbers appearing as timestamps, sizes and file indices are integral
  in all reachable states; they are modelled as `Int`/`Nat`, and
  `Number.isInteger` checks on such values hold by construction.
-/

namespace ContextFlow

/-! ## JS primitives -/

/-- Truthiness of a JS value that is either `undefined` (`none`) or a
string: `undefined` and the empty string are falsy. -/
def jsTruthy : Option String → Bool
  | none => false
  | some s => s ≠ ""

/-- `a || b` on JS string-or-undefined values. -/
def jsOr (a b : Option String) : Option String :=
  if jsTruthy a then a else b

/-- Lexicographic order on character lists by code point; models JS string
comparison (`<`, and the sign of `localeCompare` in the default C locale). -/
def charListLt : List Char → List Char → Bool
  | [], [] => false
  | [], _ :: _ => true
  | _ :: _, [] => false
  | a :: as, b :: bs =>
    if a.toNat < b.toNat then true
    else if b.toNat < a.toNat then false
    else charListLt as bs

/-- JS string `<` by code units. -/
def jsStrLt (a b : String) : Bool :=
  charListLt a.data b.data

/-- The whitespace class trimmed by `String.prototype.trim`: ASCII
whitespace plus no-break space (wider Unicode space classes do not occur
in the verified operations). -/
def isJsSpace (c : Char) : Bool :=
  c = ' ' ∨ c = '\t' ∨ c = '\n' ∨ c = '\r' ∨
    c.val = 0x0b ∨ c.val = 0x0c ∨ c.val = 0xa0 ∨ c.val = 0xfeff

/-- `value.trim()`; implemented over the character list so that it
evaluates inside the proof kernel. -/
def jsTrim (s : String) : String :=
  String.mk (((s.data.dropWhile isJsSpace).reverse.dropWhile isJsSpace).reverse)

/-! ## `lib/common.mjs`: `sanitizeDisplayText`

`sanitizeDisplayText` removes ANSI OSC sequences
(`\x1b\][^\x07]*(?:\x07|\x1b\\)`), then ANSI CSI sequences
(ESC `[`, parameter bytes, intermediate bytes, one final byte), then remaining `\x1b` bytes, then the control
characters `[\x00-\x08\x0b\x0c\x0e-\x1f\x7f]`; in `singleLine` mode it
additionally collapses runs of `[\r\n\t]+` to one space and trims.  The
scanners below translate the regex semantics over `List Char`; they use a
fuel argument equal to the input length, which suffices because every
recursive call consumes at least one character. -/

def escChar : Char := Char.ofNat 27

def belChar : Char := Char.ofNat 7

/-- Suffix after the first BEL character, if any. -/
def afterFirstBel : List Char → Option (List Char)
  | [] => none
  | c :: rest => if c = belChar then some rest else afterFirstBel rest

/-- Suffix after the last `ESC \` pair, if any. -/
def afterLastEscBackslash : List Char → Option (List Char)
  | [] => none
  | [_] => none
  | a :: b :: rest =>
    match afterLastEscBackslash (b :: rest) with
    | some r => some r
    | none => if a = escChar ∧ b = '\\' then some rest else none

/-- Terminator search for an OSC body `[^\x07]*(?:\x07|\x1b\\)`: the greedy
body ends at the first BEL when one exists, otherwise at the last `ESC \`. -/
def consumeOsc (body : List Char) : Option (List Char) :=
  match afterFirstBel body with
  | some r => some r
  | none => afterLastEscBackslash body

/-- One left-to-right pass removing every OSC sequence match. -/
def stripOscFuel : Nat → List Char → List Char
  | 0, l => l
  | _ + 1, [] => []
  | fuel + 1, c :: rest =>
    if c = escChar then
      match rest with
      | ']' :: body =>
        match consumeOsc body with
        | some r => stripOscFuel fuel r
        | none => c :: stripOscFuel fuel rest
      | _ => c :: stripOscFuel fuel rest
    else c :: stripOscFuel fuel rest

def stripOsc (l : List Char) : List Char :=
  stripOscFuel l.length l

/-- Parameter bytes `[0-?]` of a CSI sequence. -/
def isCsiParam (c : Char) : Bool := 0x30 ≤ c.val ∧ c.val ≤ 0x3F

/-- Intermediate bytes (0x20 through 0x2F) of a CSI sequence. -/
def isCsiIntermediate (c : Char) : Bool := 0x20 ≤ c.val ∧ c.val ≤ 0x2F

/-- Final byte `[@-~]` of a CSI sequence. -/
def isCsiFinal (c : Char) : Bool := 0x40 ≤ c.val ∧ c.val ≤ 0x7E

/-- Suffix after a CSI sequence body (parameter bytes, then intermediate
bytes, then one final byte), if it matches. -/
def consumeCsi (l : List Char) : Option (List Char) :=
  match (l.dropWhile isCsiParam).dropWhile isCsiIntermediate with
  | c :: rest => if isCsiFinal c then some rest else none
  | [] => none

/-- One left-to-right pass removing every CSI sequence match. -/
def stripCsiFuel : Nat → List Char → List Char
  | 0, l => l
  | _ + 1, [] => []
  | fuel + 1, c :: rest =>
    if c = escChar then
      match rest with
      | '[' :: body =>
        match consumeCsi body with
        | some r => stripCsiFuel fuel r
        | none => c :: stripCsiFuel fuel rest
      | _ => c :: stripCsiFuel fuel rest
    else c :: stripCsiFuel fuel rest

def stripCsi (l : List Char) : List Char :=
  stripCsiFuel l.length l

/-- The control characters removed by `[\x00-\x08\x0b\x0c\x0e-\x1f\x7f]`. -/
def isStrippedControl (c : Char) : Bool :=
  (c.val ≤ 0x08) ∨ c.val = 0x0b ∨ c.val = 0x0c ∨
    (0x0e ≤ c.val ∧ c.val ≤ 0x1f) ∨ c.val = 0x7f

def isRNT (c : Char) : Bool := c = '\r' ∨ c = '\n' ∨ c = '\t'

/-- Collapse each run of `[\r\n\t]+` to a single space. -/
def collapseWs : List Char → List Char
  | [] => []
  | [c] => if isRNT c then [' '] else [c]
  | a :: b :: rest =>
    if isRNT a then
      if isRNT b then collapseWs (b :: rest)
      else ' ' :: collapseWs (b :: rest)
    else a :: collapseWs (b :: rest)

/-- `sanitizeDisplayText(value, {singleLine})` from `lib/common.mjs`.
`none` models `undefined`/`null`. -/
def sanitizeDisplayText (value : Option String) (singleLine : Bool) : String :=
  match value with
  | none => ""
  | some s =>
    let cs := stripOsc s.data
    let cs := stripCsi cs
    let cs := cs.filter (fun c => c ≠ escChar)
    let cs := cs.filter (fun c => ¬ isStrippedControl c)
    if singleLine then jsTrim (String.mk (collapseWs cs))
    else String.mk cs

/-- `truncateText(value, maxLength)` from `server.mjs`: sanitize to a single
line, trim, and cap the length with a `...` suffix.  `none` models a
non-string input or an empty sanitized result. -/
def truncateText (value : Option String) (maxLength : Nat) : Option String :=
  match value with
  | none => none
  | some s =>
    let text := jsTrim (sanitizeDisplayText (some s) true)
    if text = "" then none
    else if text.length ≤ maxLength then some text
    else some (String.mk (text.data.take (maxLength - 3)) ++ "...")

/-! ## JSON values and `parseEntries` (Record Log parsing)

`JSON.parse` is a host service; the embedding takes it as a parameter
`jp : String → Except String Json` where `.error e` models a thrown parse
error already rendered by `String(error)`. -/

/-- A decoded JSON value, as classified by the reader.  Numbers are not
inspected by any of the verified operations, so their payload is `Int`. -/
inductive Json where
  | null : Json
  | bool (b : Bool) : Json
  | num (n : Int) : Json
  | str (s : String) : Json
  | arr (items : List Json) : Json
  | obj (fields : List (String × Json)) : Json

/-- `isObject(value)`: a plain object (not `null`, not an array, not a
scalar). -/
def isObject : Json → Bool
  | .obj _ => true
  | _ => false

/-- One recorded parse error `{line, error}` with a 1-based line number. -/
structure ParseErr where
  line : Nat
  error : String
deriving DecidableEq

/-- Split a character list at every LF. -/
def splitAtLf : List Char → List (List Char)
  | [] => [[]]
  | c :: rest =>
    if c = '\n' then [] :: splitAtLf rest
    else
      match splitAtLf rest with
      | [] => [[c]]
      | l :: ls => (c :: l) :: ls

/-- `raw.split(/\r?\n/)`: split at every LF, where a LF consumes one
immediately preceding CR.  Pieces not followed by a LF (the final piece)
keep a trailing CR. -/
def jsSplitLines (raw : String) : List String :=
  let rec dropCr : List (List Char) → List String
    | [] => []
    | [last] => [String.mk last]
    | piece :: rest =>
      String.mk (if piece.getLast? = some '\r' then piece.dropLast else piece)
        :: dropCr rest
  dropCr (splitAtLf raw.data)

/-- `!line || !line.trim()`: a blank line is empty or whitespace-only. -/
def isBlankLine (line : String) : Bool :=
  line = "" ∨ jsTrim line = ""

/-- The per-line outcome inside `parseEntries`' loop body. -/
def parseLine (jp : String → Except String Json) (line : String) :
    Except String Json :=
  match jp line with
  | .error e => .error e
  | .ok v => if isObject v then .ok v else .error "Error: line is not a JSON object"

/-- `parseEntries(rawText)` from `server.mjs`: split into lines, skip blank
lines, JSON-decode each remaining line requiring a plain object; a failure
produces a `{line, error}` record with the 1-based line number and the
line is skipped.  Entries and errors are accumulated in file order. -/
def parseEntries (jp : String → Except String Json) (rawText : String) :
    List Json × List ParseErr :=
  let rec loop (i : Nat) : List String →
      List Json × List ParseErr
    | [] => ([], [])
    | line :: rest =>
      let (entries, parseErrors) := loop (i + 1) rest
      if isBlankLine line then (entries, parseErrors)
      else
        match parseLine jp line with
        | .ok v => (v :: entries, parseErrors)
        | .error e => (entries, ⟨i + 1, e⟩ :: parseErrors)
  loop 0 (jsSplitLines rawText)

/-! ## File signatures and the Read Cache (`readEntries`)

The log file's physical state observed by one `fs.stat` call. `mtimeMs`
is already truncated (`Math.trunc`). -/

structure Stat where
  size : Nat
  mtimeMs : Int
deriving DecidableEq

/-- `makeFileSignature(stat)`: the `"size:mtime"` fingerprint string, or
`null` (`none`) when the stat is `null` (file absent). -/
def makeFileSignature : Option Stat → Option String
  | none => none
  | some st => some (toString st.size ++ ":" ++ toString st.mtimeMs)

/-- `MAX_CONTEXT_FILE_BYTES` (default configuration: 50 MiB). -/
def MAX_CONTEXT_FILE_BYTES : Nat := 50 * 1024 * 1024

/-- The module-level `contextCache` object. -/
structure ContextCache where
  signature : Option String
  raw : String
  entries : List Json
  parseErrors : List ParseErr

/-- `invalidateContextCache()`. -/
def invalidateContextCache : ContextCache :=
  { signature := none, raw := "", entries := [], parseErrors := [] }

/-- What `readEntries` returns to its caller. -/
structure ReadResult where
  raw : String
  entries : List Json
  parseErrors : List ParseErr
  signature : Option String

/-- One attempt's interaction with the filesystem: the pre-read stat, the
content produced by `fs.readFile`, and the post-read stat. -/
structure FsObs where
  before : Option Stat
  raw : String
  after : Option Stat

/-- The message thrown when the log exceeds the size threshold. -/
def sizeExceededMsg : String :=
  "Context file exceeds configured max size"

/-- Outcome of one iteration of `readEntries`' attempt loop. -/
inductive AttemptOut where
  | ret (r : ReadResult) (c : ContextCache)
  | tear

/-- One iteration of the loop in `readEntries` (`attempt` is 0-based;
`first` tells whether `attempt === 0`).  Returns `tear` exactly when the
loop executes `continue`. -/
def readAttempt (jp : String → Except String Json) (cache : ContextCache)
    (o : FsObs) (first : Bool) : Except String AttemptOut :=
  let beforeSignature := makeFileSignature o.before
  if beforeSignature.isSome ∧ cache.signature = beforeSignature then
    .ok (.ret { raw := cache.raw, entries := cache.entries,
                parseErrors := cache.parseErrors,
                signature := cache.signature } cache)
  else
    match o.before with
    | none => .ok (.ret { raw := "", entries := [], parseErrors := [],
                          signature := none } invalidateContextCache)
    | some st =>
      if st.size > MAX_CONTEXT_FILE_BYTES then .error sizeExceededMsg
      else
        let raw := o.raw
        let afterSignature := makeFileSignature o.after
        if beforeSignature.isSome ∧ afterSignature.isSome ∧
            beforeSignature ≠ afterSignature ∧ first then
          .ok .tear
        else
          let parsed := parseEntries jp raw
          if afterSignature.isSome ∧ beforeSignature.isSome ∧
              beforeSignature = afterSignature then
            .ok (.ret { raw := raw, entries := parsed.1,
                        parseErrors := parsed.2, signature := afterSignature }
                 { signature := afterSignature, raw := raw,
                   entries := parsed.1, parseErrors := parsed.2 })
          else
            .ok (.ret { raw := raw, entries := parsed.1,
                        parseErrors := parsed.2, signature := none }
                 invalidateContextCache)

/-- `readRawContextFile()`: stat, size check, read; `ENOENT` yields `""`. -/
def readRawContextFile (fb : Option Stat × String) : Except String String :=
  match fb.1 with
  | none => .ok ""
  | some st =>
    if st.size > MAX_CONTEXT_FILE_BYTES then .error sizeExceededMsg
    else .ok fb.2

/-- `readEntries()` from `server.mjs`: two attempts guarded by before/after
signature comparison, then (in the source, unreachably) a fallback read.
The two loop iterations observe `o₀` and `o₁`; the fallback observes `fb`.
The result pairs the returned value with the mutated module cache. -/
def readEntries (jp : String → Except String Json) (cache : ContextCache)
    (o₀ o₁ : FsObs) (fb : Option Stat × String) :
    Except String (ReadResult × ContextCache) :=
  match readAttempt jp cache o₀ true with
  | .error e => .error e
  | .ok (.ret r c) => .ok (r, c)
  | .ok .tear =>
    match readAttempt jp cache o₁ false with
    | .error e => .error e
    | .ok (.ret r c) => .ok (r, c)
    | .ok .tear =>
      match readRawContextFile fb with
      | .error e => .error e
      | .ok raw =>
        let parsed := parseEntries jp raw
        .ok ({ raw := raw, entries := parsed.1, parseErrors := parsed.2,
               signature := none }, cache)

/-! ## The Entry data model and the Date environment

A parsed log entry with the fields the indexing, filtering and
summarization code reads.  Each field is a JS string or `undefined`
(`none`); entries whose fields hold non-string JSON values behave, for
every `typeof x === "string"`-guarded read in the source, like `none`. -/

structure Entry where
  ts : Option String := none
  kind : Option String := none
  project : Option String := none
  agent : Option String := none
  session_id : Option String := none
  task : Option String := none
  text : Option String := none
  summary : Option String := none
deriving DecidableEq

/-- The host date services: `Date.parse` (`none` models `NaN`) and
`new Date(ms).toISOString()`. -/
structure DateEnv where
  parse : String → Option Int
  toIso : Int → String

/-- `DEFAULT_PROJECT` (default configuration: `"shared"`). -/
def DEFAULT_PROJECT : String := "shared"

/-- `normalizeSessionId(value)` on a string-or-undefined input: trim, and
map a blank result to `undefined`. -/
def normalizeSessionId : Option String → Option String
  | none => none
  | some s => if jsTrim s = "" then none else some (jsTrim s)

/-- `getSessionProject(entry)`: the trimmed project, defaulting. -/
def getSessionProject (entry : Entry) : String :=
  match entry.project with
  | some p => if jsTrim p = "" then DEFAULT_PROJECT else jsTrim p
  | none => DEFAULT_PROJECT

/-! ## Session Summaries -/

/-- One Session Summary record (`makeSessionSummary` gives the initial
state). `latest_ts_ms : Option Int` models `number | null`. -/
structure SessionSummary where
  session_id : String
  project : Option String
  entry_count : Nat
  note_count : Nat
  handoff_count : Nat
  latest_ts : Option String
  latest_ts_ms : Option Int
  latest_file_index : Int
  last_entry_kind : Option String
  task : Option String
  agents : List String
  latest_handoff_summary : Option String
deriving DecidableEq

/-- `makeSessionSummary(sessionId, project)`.  As in the source, a falsy
(empty or absent) project becomes `undefined`. -/
def makeSessionSummary (sessionId : String) (project : Option String) :
    SessionSummary :=
  { session_id := sessionId
    project := if jsTruthy project then project else none
    entry_count := 0
    note_count := 0
    handoff_count := 0
    latest_ts := none
    latest_ts_ms := none
    latest_file_index := -1
    last_entry_kind := none
    task := none
    agents := []
    latest_handoff_summary := none }

/-- `pushUniqueString(target, value)`: append the trimmed value unless it
is blank, not a string, or already present. -/
def pushUniqueString (target : List String) (value : Option String) :
    List String :=
  match value with
  | none => target
  | some v =>
    if jsTrim v = "" then target
    else if jsTrim v ∈ target then target
    else target ++ [jsTrim v]

/-- `applyEntryToSessionSummary(summary, entry, fileIndex)`: fold one entry
into a summary.  `fileIndex` is integral by construction, so the source's
`Number.isInteger(fileIndex)` guards hold. -/
def applyEntryToSessionSummary (env : DateEnv) (summary : SessionSummary)
    (entry : Entry) (fileIndex : Int) : SessionSummary :=
  let s := { summary with entry_count := summary.entry_count + 1 }
  let s := if entry.kind = some "note" then
      { s with note_count := s.note_count + 1 } else s
  let s := if entry.kind = some "handoff" then
      { s with handoff_count := s.handoff_count + 1 } else s
  let s := { s with last_entry_kind := jsOr entry.kind s.last_entry_kind }
  let s := { s with latest_file_index := fileIndex }
  let s := if ¬ jsTruthy s.project ∧ jsTruthy entry.project then
      { s with project := entry.project } else s
  let s := match entry.task with
    | some t => if jsTrim t = "" then s else { s with task := some (jsTrim t) }
    | none => s
  let s := { s with agents := pushUniqueString s.agents entry.agent }
  let s := if entry.kind = some "handoff" then
      match truncateText entry.summary 180 with
      | some h => { s with latest_handoff_summary := some h }
      | none => s
    else s
  let entryTs := entry.ts
  let entryTsMs : Option Int := match entryTs with
    | some t => if t = "" then none else env.parse t
    | none => none
  match entryTsMs with
  | some ms =>
    let newer := match s.latest_ts_ms with
      | none => true
      | some cur => cur ≤ ms
    if newer then
      { s with latest_ts_ms := some ms, latest_ts := some (env.toIso ms),
               latest_file_index := fileIndex }
    else s
  | none =>
    if ¬ jsTruthy s.latest_ts ∧ jsTruthy entryTs then
      { s with latest_ts := entryTs }
    else s

/-! ## The Session Index

JS objects used as string-keyed maps preserve insertion order; they are
embedded as association lists with in-place update. -/

/-- Lookup in a JS object used as a map. -/
def assocGet {α : Type} (m : List (String × α)) (k : String) : Option α :=
  match m with
  | [] => none
  | (k', v) :: rest => if k' = k then some v else assocGet rest k

/-- Key assignment in a JS object used as a map: update in place, append
when absent (insertion order preserved). -/
def assocSet {α : Type} (m : List (String × α)) (k : String) (v : α) :
    List (String × α) :=
  match m with
  | [] => [(k, v)]
  | (k', v') :: rest =>
    if k' = k then (k', v) :: rest else (k', v') :: assocSet rest k v

/-- `SESSION_INDEX_VERSION`. -/
def SESSION_INDEX_VERSION : Nat := 1

/-- The persisted session index `{version, context_signature,
next_file_index, projects}`. -/
structure SessionIndex where
  version : Nat
  context_signature : Option String
  next_file_index : Int
  projects : List (String × List (String × SessionSummary))

/-- `makeSessionIndexSkeleton(contextSignature)`. -/
def makeSessionIndexSkeleton (contextSignature : Option String) :
    SessionIndex :=
  { version := SESSION_INDEX_VERSION
    context_signature := contextSignature
    next_file_index := 0
    projects := [] }

/-- JS sort of a string array (`agents.sort()`): lexicographic by code
unit, stable. -/
def sortStrings (l : List String) : List String :=
  l.mergeSort (fun a b => ! jsStrLt b a)

/-- `applyEntryToSessionIndex(index, entry, fileIndex)`: advance
`next_file_index`, then fold the entry into its `(project, session)`
bucket and re-sort that bucket's agents.  Entries without a (normalized)
`session_id` only advance `next_file_index`. -/
def applyEntryToSessionIndex (env : DateEnv) (index : SessionIndex)
    (entry : Entry) (fileIndex : Int) : SessionIndex :=
  let index :=
    if 0 ≤ fileIndex then
      { index with next_file_index := max index.next_file_index (fileIndex + 1) }
    else index
  match normalizeSessionId entry.session_id with
  | none => index
  | some sessionId =>
    let project := getSessionProject entry
    let bucket := (assocGet index.projects project).getD []
    let summary := (assocGet bucket sessionId).getD
      (makeSessionSummary sessionId (some project))
    let summary := applyEntryToSessionSummary env summary entry fileIndex
    let summary := { summary with agents := sortStrings summary.agents }
    let newBucket := assocSet bucket sessionId summary
    { index with projects := assocSet index.projects project newBucket }

/-- The `entries.forEach((entry, fileIndex) => ...)` fold inside
`buildSessionIndexFromEntries`, starting at file index `i`. -/
def buildIndexAux (env : DateEnv) (index : SessionIndex) (i : Nat) :
    List Entry → SessionIndex
  | [] => index
  | e :: rest =>
    buildIndexAux env (applyEntryToSessionIndex env index e (i : Int)) (i + 1) rest

/-- `buildSessionIndexFromEntries(entries, contextSignature)`: fold every
entry into an empty skeleton, then force `next_file_index` up to the entry
count. -/
def buildSessionIndexFromEntries (env : DateEnv) (entries : List Entry)
    (contextSignature : Option String) : SessionIndex :=
  let index := buildIndexAux env (makeSessionIndexSkeleton contextSignature) 0 entries
  if index.next_file_index < (entries.length : Int) then
    { index with next_file_index := (entries.length : Int) }
  else index

/-- The success path of `tryUpdateSessionIndexOnAppend(entry,
{beforeSignature, afterSignature})` once a valid index for the
before-signature has been loaded (`loaded`): restamp the signature, fold
the one appended entry at `next_file_index`, and advance it. -/
def tryUpdateSessionIndexOnAppend (env : DateEnv) (loaded : SessionIndex)
    (afterSignature : String) (entry : Entry) : SessionIndex :=
  let index := { loaded with context_signature := some afterSignature }
  let fileIndex := if 0 ≤ index.next_file_index then index.next_file_index else 0
  let index := applyEntryToSessionIndex env index entry fileIndex
  if index.next_file_index < fileIndex + 1 then
    { index with next_file_index := fileIndex + 1 }
  else index

/-- The spec's append-time maintenance loop: starting from `start`, fold
each appended entry one at a time through the append-time update path,
stamping the `k`-th append with signature `sigOf k`. -/
def incrementalIndexFold (env : DateEnv) (sigOf : Nat → String)
    (start : SessionIndex) (k : Nat) : List Entry → SessionIndex
  | [] => start
  | e :: rest =>
    incrementalIndexFold env sigOf
      (tryUpdateSessionIndexOnAppend env start (sigOf k) e) (k + 1) rest

/-! ## Session summarization and sorting -/

/-- `getSummaryLatestTsMs(summary)`: the numeric latest timestamp, falling
back to parsing `latest_ts`; `none` models `Number.NEGATIVE_INFINITY`. -/
def getSummaryLatestTsMs (env : DateEnv) (summary : SessionSummary) :
    Option Int :=
  match summary.latest_ts_ms with
  | some v => some v
  | none =>
    match summary.latest_ts with
    | some t => if t = "" then none else env.parse t
    | none => none

/-- Three-way comparison of `Option Int` where `none` is
`NEGATIVE_INFINITY`. -/
def optIntCmp : Option Int → Option Int → Ordering
  | none, none => .eq
  | none, some _ => .lt
  | some _, none => .gt
  | some a, some b => if a < b then .lt else if a = b then .eq else .gt

def intCmp (a b : Int) : Ordering :=
  if a < b then .lt else if a = b then .eq else .gt

/-- The sign of `String.prototype.localeCompare`, modelled as lexicographic
comparison. -/
def strCmp (a b : String) : Ordering :=
  if jsStrLt a b then .lt else if a = b then .eq else .gt

/-- The comparator passed to `summaries.sort(...)` in
`sortSessionSummaries`: latest timestamp descending, then latest file
index descending, then `session_id` ascending.  `.lt` means `a` sorts
before `b`. -/
def summaryCmp (env : DateEnv) (a b : SessionSummary) : Ordering :=
  if getSummaryLatestTsMs env b ≠ getSummaryLatestTsMs env a then
    optIntCmp (getSummaryLatestTsMs env b) (getSummaryLatestTsMs env a)
  else if b.latest_file_index ≠ a.latest_file_index then
    intCmp b.latest_file_index a.latest_file_index
  else strCmp a.session_id b.session_id

/-- The order induced by the comparator: `a` need not come after `b`. -/
def summaryLe (env : DateEnv) (a b : SessionSummary) : Prop :=
  summaryCmp env a b ≠ Ordering.gt

instance (env : DateEnv) : DecidableRel (summaryLe env) := fun a b => by
  unfold summaryLe; infer_instance

/-- `sortSessionSummaries(summaries)`: a stable sort by the comparator. -/
def sortSessionSummaries (env : DateEnv) (summaries : List SessionSummary) :
    List SessionSummary :=
  summaries.insertionSort (summaryLe env)

/-- `NO_SESSION_BUCKET`. -/
def NO_SESSION_BUCKET : String := "(no-session-id)"

/-- The grouping fold of `buildSessionSummaries`: group entries by
(possibly synthetic) session id in first-seen order. -/
def buildSessionGroups (env : DateEnv) (sessions : List (String × SessionSummary))
    (i : Nat) (includeUnsessioned : Bool) :
    List Entry → List (String × SessionSummary)
  | [] => sessions
  | entry :: rest =>
    let rawSessionId := match entry.session_id with
      | some s => jsTrim s
      | none => ""
    let sessionId := if rawSessionId ≠ "" then rawSessionId
      else if includeUnsessioned then NO_SESSION_BUCKET else ""
    if sessionId = "" then
      buildSessionGroups env sessions (i + 1) includeUnsessioned rest
    else
      let summary := (assocGet sessions sessionId).getD
        (makeSessionSummary sessionId entry.project)
      let summary := applyEntryToSessionSummary env summary entry (i : Int)
      buildSessionGroups env (assocSet sessions sessionId summary) (i + 1)
        includeUnsessioned rest

/-- `buildSessionSummaries(entries, {includeUnsessioned})`: group, copy
each summary with sorted agents, and sort the groups. -/
def buildSessionSummaries (env : DateEnv) (entries : List Entry)
    (includeUnsessioned : Bool) : List SessionSummary :=
  let groups := buildSessionGroups env [] 0 includeUnsessioned entries
  sortSessionSummaries env
    (groups.map (fun p => { p.2 with agents := sortStrings p.2.agents }))

/-! ## Filtering (`filterEntries`) -/

/-- The candidate filter set `{project, agent, session_id, kind, since}`. -/
structure Filters where
  project : Option String := none
  agent : Option String := none
  session_id : Option String := none
  kind : Option String := none
  since : Option String := none

/-- One string-equality filter clause `if (f && entry.x !== f) return
false`: a falsy filter value passes everything. -/
def strFilterPass (filterVal entryVal : Option String) : Bool :=
  match filterVal with
  | none => true
  | some p => if p = "" then true else entryVal = some p

/-- `Date.parse(entry.ts || "")`: the entry's parsed timestamp, `none`
modelling `NaN`. -/
def entryTsMs (env : DateEnv) (entry : Entry) : Option Int :=
  match entry.ts with
  | some t => if t = "" then none else env.parse t
  | none => none

/-- The predicate applied to each entry by `filterEntries`.  `sinceMs`
models `since ? Date.parse(since) : null` (outer `none` is `null`, inner
`none` is `NaN`). -/
def entryMatches (env : DateEnv) (filters : Filters) (entry : Entry) : Bool :=
  let sinceMs : Option (Option Int) :=
    match filters.since with
    | some s => if s = "" then none else some (env.parse s)
    | none => none
  if ¬ strFilterPass filters.project entry.project then false
  else if ¬ strFilterPass filters.agent entry.agent then false
  else if ¬ strFilterPass filters.session_id entry.session_id then false
  else if ¬ strFilterPass filters.kind entry.kind then false
  else
    match sinceMs with
    | none => true
    | some sinceVal =>
      match entryTsMs env entry with
      | none => false
      | some em =>
        match sinceVal with
        | none => true
        | some m => ¬ em < m

/-- `filterEntries(entries, filters)`. -/
def filterEntries (env : DateEnv) (entries : List Entry) (filters : Filters) :
    List Entry :=
  entries.filter (entryMatches env filters)

/-! ## Session resolution (`resolveSessionIdInput`)

The environment override `MCP_SHARED_CONTEXT_ACTIVE_SESSION` and the
Active Session Pointer file become explicit inputs: `envVal` is the
environment variable (or `none` when unset) and `fileVal` is the file's
text (or `none` when the file does not exist). -/

/-- `readActiveSessionId()`: the normalized environment override wins;
otherwise the normalized pointer-file content. -/
def readActiveSessionId (envVal fileVal : Option String) : Option String :=
  match normalizeSessionId envVal with
  | some s => some s
  | none =>
    match fileVal with
    | none => none
    | some text => normalizeSessionId (some text)

/-- The `MissingSessionId` message, naming the remediation. -/
def missingSessionIdMsg : String :=
  "Missing session_id. Choose one with list_sessions/choose_session (or run pick-session.mjs) and try again."

/-- `resolveSessionIdInput(value, {required})`. -/
def resolveSessionIdInput (value envVal fileVal : Option String)
    (required : Bool) : Except String (Option String) :=
  match normalizeSessionId value with
  | some explicit => .ok (some explicit)
  | none =>
    match readActiveSessionId envVal fileVal with
    | some active => .ok (some active)
    | none =>
      if required then .error missingSessionIdMsg
      else .ok none

/-! ## The Lock Manager (`withWriteLock`, `maybeBreakStaleLock`)

One process's lock-acquisition run is driven by a trace of per-iteration
filesystem outcomes.  Each `eexist` event carries the `Date.now()` value
observed at the timeout check (`tCheck`), the one observed inside
`maybeBreakStaleLock` (`tStale`), the lock marker's `mtimeMs` (or `none`
when the marker vanished before the stat), and the iteration's random
jitter (`Math.floor(Math.random() * 60)`). -/

def MAX_LOCK_WAIT_MS : Int := 5000

def STALE_LOCK_MS : Int := 30000

/-- The outcome of one `fs.open(LOCK_FILE, "wx")` attempt. -/
inductive LockAttempt where
  | success
  | eexist (tCheck tStale : Int) (mtime : Option Int) (jitter : Int)
  | ioError
deriving DecidableEq

/-- The externally visible actions of the acquisition loop, in order. -/
inductive LockAction where
  | tryCreate
  | writeMeta
  | runCritical
  | releaseLock
  | unlinkStale
  | sleepBackoff (ms : Int)
deriving DecidableEq

inductive LockOutcome where
  | acquired
  | timeout
  | ioError
  | pending
deriving DecidableEq

/-- `maybeBreakStaleLock()`: delete the marker when it is older than the
staleness threshold.  Returns the unlink action, if any. -/
def maybeBreakStaleLock (tStale : Int) (mtime : Option Int) :
    List LockAction :=
  match mtime with
  | none => []
  | some m => if tStale - m > STALE_LOCK_MS then [.unlinkStale] else []

/-- `withWriteLock(fn)` from `server.mjs`, over a critical section `fn`
acting on state `s`.  `start` is the `Date.now()` at entry; the trace
lists each iteration's creation-attempt outcome.  Returns the action
trace, the outcome (`pending` only when the trace is exhausted while
still retrying), and the final state. -/
def withWriteLock {σ : Type} (fn : σ → σ) (s : σ) (start : Int) :
    List LockAttempt → List LockAction × LockOutcome × σ
  | [] => ([], .pending, s)
  | .success :: _ =>
    ([.tryCreate, .writeMeta, .runCritical, .releaseLock], .acquired, fn s)
  | .ioError :: _ => ([.tryCreate], .ioError, s)
  | .eexist tCheck tStale mtime jitter :: rest =>
    if tCheck - start > MAX_LOCK_WAIT_MS then ([.tryCreate], .timeout, s)
    else
      let breakActs := maybeBreakStaleLock tStale mtime
      let tail := withWriteLock fn s start rest
      (.tryCreate :: breakActs ++ .sleepBackoff (40 + jitter) :: tail.1,
       tail.2.1, tail.2.2)

/-- The write operation `appendEntry(entry)` as it touches the log: the
serialized line is appended inside the critical section; nothing touches
the log outside it. -/
def appendEntryLog (line : String) (log : String) (start : Int)
    (trace : List LockAttempt) : List LockAction × LockOutcome × String :=
  withWriteLock (fun l => l ++ line ++ "\n") log start trace

/-! ## Session listing (`buildSessionListResult`) and `choose_session` -/

/-- The validated options from `parseSessionListOptions(args)`. -/
structure ListOptions where
  project : String
  agent : Option String := none
  since : Option String := none
  limit : Nat := 20
  includeUnsessioned : Bool := false

/-- The filesystem state a session-listing query runs against:
the log file's stat, the stored (already version-validated) index file
content, and the outcome of `readEntries` on the log. -/
structure ListWorld where
  stat : Option Stat
  storedIndex : Option SessionIndex
  entries : List Entry
  parseErrors : List ParseErr
  readSignature : Option String

/-- `loadSessionIndex(expectedContextSignature)`: a stored index is usable
only when its stamped signature equals the expected one (the in-memory
index cache layer returns the same validated value and is elided). -/
def loadSessionIndex (stored : Option SessionIndex)
    (expected : Option String) : Option SessionIndex :=
  match expected with
  | none => none
  | some sig =>
    match stored with
    | none => none
    | some index =>
      if index.context_signature = some sig then some index else none

/-- `listProjectSessionsFromIndex(index, project)`: the project's bucket,
each summary with a freshly sorted agents copy, sorted. -/
def listProjectSessionsFromIndex (env : DateEnv) (index : SessionIndex)
    (project : String) : List SessionSummary :=
  let bucket := (assocGet index.projects project).getD []
  sortSessionSummaries env
    (bucket.map (fun p => { p.2 with agents := sortStrings p.2.agents }))

/-- Which strategy `buildSessionListResult` ended up using. -/
inductive ListPath where
  | emptyLog
  | indexFast
  | scanRebuild
  | fullScan
deriving DecidableEq

/-- What `buildSessionListResult` returns. -/
structure ListResult where
  parseErrors : List ParseErr
  allSessions : List SessionSummary
  visibleSessions : List SessionSummary

/-- `buildSessionListResult(options)` from `server.mjs`, tagged with the
path taken.  The opportunistic index rebuild on the scan path is a
side effect on the index file and does not alter the returned value. -/
def buildSessionListResult (env : DateEnv) (w : ListWorld)
    (options : ListOptions) : ListPath × ListResult :=
  let canUseIndex := ¬ jsTruthy options.agent ∧ ¬ jsTruthy options.since ∧
    options.includeUnsessioned = false
  if canUseIndex then
    let contextSignature := makeFileSignature w.stat
    match contextSignature with
    | none =>
      (.emptyLog, { parseErrors := [], allSessions := [], visibleSessions := [] })
    | some sig =>
      match loadSessionIndex w.storedIndex (some sig) with
      | some indexed =>
        let allSessions := listProjectSessionsFromIndex env indexed options.project
        (.indexFast, { parseErrors := [], allSessions := allSessions,
                       visibleSessions := allSessions.take options.limit })
      | none =>
        let filtered := filterEntries env w.entries
          { project := some options.project, agent := options.agent,
            since := options.since }
        let allSessions := buildSessionSummaries env filtered
          options.includeUnsessioned
        (.scanRebuild, { parseErrors := w.parseErrors,
                         allSessions := allSessions,
                         visibleSessions := allSessions.take options.limit })
  else
    let filtered := filterEntries env w.entries
      { project := some options.project, agent := options.agent,
        since := options.since }
    let allSessions := buildSessionSummaries env filtered
      options.includeUnsessioned
    (.fullScan, { parseErrors := w.parseErrors,
                  allSessions := allSessions,
                  visibleSessions := allSessions.take options.limit })

/-- The side effects of one `choose_session` call that the claims track. -/
structure ChooseEffects where
  stattedLog : Bool
  readLog : Bool
  wrotePointer : Option String
deriving DecidableEq

def noChooseEffects : ChooseEffects :=
  { stattedLog := false, readLog := false, wrotePointer := none }

/-- The raw `choose_session` arguments the validation logic inspects
(`index` is `args.index`, an integer or absent; `session_id` is
`args.session_id`, a string or absent; `listOptions` stands for the other
already-validated list options). -/
structure ChooseArgs where
  index : Option Int := none
  session_id : Option String := none
  listOptions : ListOptions

/-- `asPositiveInt(value, name, undefined, 1, 200)` for `args.index`. -/
def validateChooseIndex (value : Option Int) : Except String (Option Int) :=
  match value with
  | none => .ok none
  | some v =>
    if v < 1 ∨ 200 < v then .error "index must be between 1 and 200"
    else .ok (some v)

/-- The result of a `choose_session` call that got past validation. -/
inductive ChooseOutcome where
  | noSessionAtIndex (index : Int)
  | sessionNotFound (sessionId : String)
  | selected (sessionId : String)
deriving DecidableEq

/-- Effects of a `buildSessionListResult` call, per path: every non-empty
path stats the log; the scan paths read and parse it. -/
def listPathEffects : ListPath → ChooseEffects
  | .emptyLog => { stattedLog := true, readLog := false, wrotePointer := none }
  | .indexFast => { stattedLog := true, readLog := false, wrotePointer := none }
  | .scanRebuild => { stattedLog := true, readLog := true, wrotePointer := none }
  | .fullScan => { stattedLog := false, readLog := true, wrotePointer := none }

/-- The `choose_session` branch of `callTool`: validate `index`, require
exactly one of `index`/`session_id`, then list, select, and persist the
Active Session Pointer.  Errors thrown before any filesystem access carry
`noChooseEffects`. -/
def chooseSession (env : DateEnv) (w : ListWorld) (args : ChooseArgs) :
    ChooseEffects × Except String ChooseOutcome :=
  match validateChooseIndex args.index with
  | .error e => (noChooseEffects, .error e)
  | .ok index =>
    let session_id := args.session_id.map jsTrim
    let hasIndex := index.isSome
    let hasSessionIdArg := session_id.isSome
    if ¬ hasIndex ∧ ¬ hasSessionIdArg then
      (noChooseEffects, .error "choose_session requires either index or session_id")
    else if hasIndex ∧ hasSessionIdArg then
      (noChooseEffects, .error "choose_session accepts either index or session_id, not both")
    else
      let (path, result) := buildSessionListResult env w args.listOptions
      let eff := listPathEffects path
      match index with
      | some i =>
        match result.visibleSessions.get? (i - 1).toNat with
        | none => (eff, .ok (.noSessionAtIndex i))
        | some selected =>
          ({ eff with wrotePointer := some selected.session_id },
           .ok (.selected selected.session_id))
      | none =>
        let sid := session_id.getD ""
        match result.allSessions.find? (fun s => s.session_id = sid) with
        | none => (eff, .ok (.sessionNotFound sid))
        | some selected =>
          ({ eff with wrotePointer := some selected.session_id },
           .ok (.selected selected.session_id))

/-! # Verified properties -/

/-! ## Record Log parsing (claim C6) -/

/-- What one line contributes to the entries result. -/
def lineEntryResult (jp : String → Except String Json) (line : String) :
    Option Json :=
  if isBlankLine line then none
  else
    match jp line with
    | .ok v => if isObject v then some v else none
    | .error _ => none

/-- What one line (paired with its 0-based position) contributes to the
parse-error result. -/
def lineErrorResult (jp : String → Except String Json) (p : Nat × String) :
    Option ParseErr :=
  if isBlankLine p.2 then none
  else
    match jp p.2 with
    | .ok v =>
      if isObject v then none
      else some ⟨p.1 + 1, "Error: line is not a JSON object"⟩
    | .error e => some ⟨p.1 + 1, e⟩

theorem parseEntries_loop_eq (jp : String → Except String Json) :
    ∀ (lines : List String) (i : Nat),
      parseEntries.loop jp i lines =
        (lines.filterMap (lineEntryResult jp),
         (lines.enumFrom i).filterMap (lineErrorResult jp)) := by
  intro lines
  induction lines with
  | nil => intro i; simp [parseEntries.loop]
  | cons line rest ih =>
    intro i
    simp only [parseEntries.loop, ih (i + 1), List.enumFrom,
      List.filterMap_cons, lineEntryResult, lineErrorResult, parseLine]
    by_cases hb : isBlankLine line = true
    · simp [hb]
    · simp only [Bool.not_eq_true] at hb
      cases hjp : jp line with
      | ok v =>
        by_cases ho : isObject v = true
        · simp [hb, hjp, ho]
        · simp only [Bool.not_eq_true] at ho
          simp [hb, hjp, ho]
      | error e => simp [hb, hjp]

/-- C6: for every raw text, `parseEntries` splits on LF/CRLF boundaries,
ignores blank lines, turns each remaining line that is invalid JSON or a
non-object JSON value into exactly one `{line, error}` record carrying the
1-based line number, keeps every other line as an entry, never aborts, and
preserves file order (the results are order-preserving projections of the
line list). -/
theorem parseEntries_spec (jp : String → Except String Json) (raw : String) :
    parseEntries jp raw =
      ((jsSplitLines raw).filterMap (lineEntryResult jp),
       ((jsSplitLines raw).enumFrom 0).filterMap (lineErrorResult jp)) := by
  unfold parseEntries
  exact parseEntries_loop_eq jp (jsSplitLines raw) 0

/-! ## Filtering (claim C7) -/

/-- The claim's reading of one string filter clause: when the filter field
is present (a non-empty string), the entry field must equal it exactly. -/
def fieldClause (fv ev : Option String) : Prop :=
  ∀ p, fv = some p → p ≠ "" → ev = some p

theorem strFilterPass_iff (fv ev : Option String) :
    strFilterPass fv ev = true ↔ fieldClause fv ev := by
  cases fv with
  | none => simp [strFilterPass, fieldClause]
  | some p =>
    by_cases hp : p = "" <;>
      simp [strFilterPass, fieldClause, hp]

/-- The four equality clauses of the filter set. -/
def fieldClauses (filters : Filters) (entry : Entry) : Prop :=
  fieldClause filters.project entry.project ∧
  fieldClause filters.agent entry.agent ∧
  fieldClause filters.session_id entry.session_id ∧
  fieldClause filters.kind entry.kind

theorem entryMatches_fieldClauses (env : DateEnv) (filters : Filters)
    (entry : Entry) :
    entryMatches env filters entry = true →
      fieldClauses filters entry := by
  intro h
  unfold entryMatches at h
  by_cases h1 : strFilterPass filters.project entry.project = true
  · by_cases h2 : strFilterPass filters.agent entry.agent = true
    · by_cases h3 : strFilterPass filters.session_id entry.session_id = true
      · by_cases h4 : strFilterPass filters.kind entry.kind = true
        · exact ⟨(strFilterPass_iff _ _).mp h1, (strFilterPass_iff _ _).mp h2,
            (strFilterPass_iff _ _).mp h3, (strFilterPass_iff _ _).mp h4⟩
        · simp [h1, h2, h3, h4] at h
      · simp [h1, h2, h3] at h
    · simp [h1, h2] at h
  · simp [h1] at h

/-- C7: an entry matches a filter set iff every present filter field
equals the corresponding entry field by exact string comparison, and, when
a parseable `since` is present, the entry's timestamp parses to a value
not earlier than `since`'s; an entry whose timestamp does not parse fails
every filter set containing a (non-empty) `since`. -/
theorem filterEntries_spec (env : DateEnv) (filters : Filters) (entry : Entry) :
    (filters.since = none →
      (entryMatches env filters entry = true ↔ fieldClauses filters entry)) ∧
    (∀ s m, filters.since = some s → s ≠ "" → env.parse s = some m →
      (entryMatches env filters entry = true ↔
        (fieldClauses filters entry ∧
          ∃ em, entryTsMs env entry = some em ∧ m ≤ em))) ∧
    (∀ s, filters.since = some s → s ≠ "" → entryTsMs env entry = none →
      entryMatches env filters entry = false) := by
  refine ⟨?_, ?_, ?_⟩
  · intro hs
    constructor
    · exact entryMatches_fieldClauses env filters entry
    · rintro ⟨c1, c2, c3, c4⟩
      simp [entryMatches, hs, (strFilterPass_iff _ _).mpr c1,
        (strFilterPass_iff _ _).mpr c2, (strFilterPass_iff _ _).mpr c3,
        (strFilterPass_iff _ _).mpr c4]
  · intro s m hs hne hm
    constructor
    · intro h
      have hc := entryMatches_fieldClauses env filters entry h
      refine ⟨hc, ?_⟩
      have h1 := (strFilterPass_iff _ _).mpr hc.1
      have h2 := (strFilterPass_iff _ _).mpr hc.2.1
      have h3 := (strFilterPass_iff _ _).mpr hc.2.2.1
      have h4 := (strFilterPass_iff _ _).mpr hc.2.2.2
      cases he : entryTsMs env entry with
      | none => simp [entryMatches, h1, h2, h3, h4, hs, hne, hm, he] at h
      | some em =>
        refine ⟨em, rfl, ?_⟩
        simp [entryMatches, h1, h2, h3, h4, hs, hne, hm, he] at h
        omega
    · rintro ⟨⟨c1, c2, c3, c4⟩, em, he, hle⟩
      have hlt : ¬ em < m := by omega
      simp [entryMatches, hs, hne, hm, he, hlt,
        (strFilterPass_iff _ _).mpr c1, (strFilterPass_iff _ _).mpr c2,
        (strFilterPass_iff _ _).mpr c3, (strFilterPass_iff _ _).mpr c4]
  · intro s hs hne hts
    by_cases h1 : strFilterPass filters.project entry.project = true <;>
      by_cases h2 : strFilterPass filters.agent entry.agent = true <;>
        by_cases h3 : strFilterPass filters.session_id entry.session_id = true <;>
          by_cases h4 : strFilterPass filters.kind entry.kind = true <;>
            simp [entryMatches, h1, h2, h3, h4, hs, hne, hts]

/-- A date environment realizing the spec's `since` example (10:00, 10:05,
10:10 become 600, 605, 610). -/
def envW : DateEnv :=
  { parse := fun s =>
      if s = "T600" then some 600
      else if s = "T605" then some 605
      else if s = "T610" then some 610
      else none
    toIso := fun ms => "T" ++ toString ms }

def sinceFilterW : Filters := { since := some "T605" }

def entryW : Entry := { ts := some "T610", agent := some "a" }

theorem filterEntries_spec_witness :
    entryMatches envW sinceFilterW entryW = true ↔
      (fieldClauses sinceFilterW entryW ∧
        ∃ em, entryTsMs envW entryW = some em ∧ 605 ≤ em) :=
  (filterEntries_spec envW sinceFilterW entryW).2.1 "T605" 605 rfl
    (by decide) rfl

/-! ## Session resolution (claim C4) -/

/-- C4: session resolution precedence.  A non-empty explicit argument
wins; otherwise a (non-blank) environment override wins; otherwise the
persisted Active Session Pointer is used; when the operation requires a
session and all three are absent, the operation fails with the
`MissingSessionId` message, which names the remediation. -/
theorem resolveSessionId_spec (value envVal fileVal : Option String)
    (required : Bool) :
    (∀ s, normalizeSessionId value = some s →
      resolveSessionIdInput value envVal fileVal required = .ok (some s)) ∧
    (normalizeSessionId value = none →
      ∀ s, normalizeSessionId envVal = some s →
        resolveSessionIdInput value envVal fileVal required = .ok (some s)) ∧
    (normalizeSessionId value = none → normalizeSessionId envVal = none →
      ∀ t s, fileVal = some t → normalizeSessionId (some t) = some s →
        resolveSessionIdInput value envVal fileVal required = .ok (some s)) ∧
    (normalizeSessionId value = none → normalizeSessionId envVal = none →
      (∀ t, fileVal = some t → normalizeSessionId (some t) = none) →
      required = true →
        resolveSessionIdInput value envVal fileVal required =
          .error missingSessionIdMsg) := by
  refine ⟨?_, ?_, ?_, ?_⟩
  · intro s hv
    simp [resolveSessionIdInput, hv]
  · intro hv s he
    simp [resolveSessionIdInput, readActiveSessionId, hv, he]
  · intro hv he t s hf ht
    simp [resolveSessionIdInput, readActiveSessionId, hv, he, hf, ht]
  · intro hv he hf hr
    cases hfv : fileVal with
    | none => simp [resolveSessionIdInput, readActiveSessionId, hv, he, hfv, hr]
    | some t =>
      simp [resolveSessionIdInput, readActiveSessionId, hv, he, hfv,
        hf t hfv, hr]

theorem resolveSessionId_spec_witness :
    resolveSessionIdInput none none none true = .error missingSessionIdMsg :=
  (resolveSessionId_spec none none none true).2.2.2 rfl rfl
    (fun t h => by cases h) rfl

/-! ## The Lock Manager (claims C5 and C9) -/

theorem withWriteLock_eexist_spec {σ : Type} (fn : σ → σ) (s : σ)
    (start tCheck tStale : Int) (mt : Option Int) (j : Int)
    (rest : List LockAttempt) :
    (tCheck - start > MAX_LOCK_WAIT_MS →
      withWriteLock fn s start (.eexist tCheck tStale mt j :: rest) =
        ([.tryCreate], .timeout, s)) ∧
    (tCheck - start ≤ MAX_LOCK_WAIT_MS →
      withWriteLock fn s start (.eexist tCheck tStale mt j :: rest) =
        (.tryCreate :: maybeBreakStaleLock tStale mt ++
            .sleepBackoff (40 + j) :: (withWriteLock fn s start rest).1,
         (withWriteLock fn s start rest).2.1,
         (withWriteLock fn s start rest).2.2)) := by
  constructor
  · intro h
    simp [withWriteLock, h]
  · intro h
    have hn : ¬ tCheck - start > MAX_LOCK_WAIT_MS := by omega
    simp [withWriteLock, hn]

theorem maybeBreakStaleLock_spec (tStale : Int) (mt : Option Int) :
    (∀ m, mt = some m → tStale - m > STALE_LOCK_MS →
      maybeBreakStaleLock tStale mt = [.unlinkStale]) ∧
    (∀ m, mt = some m → tStale - m ≤ STALE_LOCK_MS →
      maybeBreakStaleLock tStale mt = []) ∧
    (mt = none → maybeBreakStaleLock tStale mt = []) := by
  refine ⟨?_, ?_, ?_⟩
  · intro m hm h
    simp [maybeBreakStaleLock, hm, h]
  · intro m hm h
    have hn : ¬ tStale - m > STALE_LOCK_MS := by omega
    simp [maybeBreakStaleLock, hm, hn]
  · intro hm
    simp [maybeBreakStaleLock, hm]

/-- C5 (counterexample): with a stale marker (age 40000 ms > 30000 ms) the
loop best-effort deletes it and then still sleeps the randomized backoff
before the next creation attempt, refuting "the next creation attempt
happens immediately (without a backoff sleep)". -/
theorem withWriteLock_staleRetry_cex :
    (withWriteLock (fun (l : String) => l ++ "x") "log" 0
        [.eexist 0 40000 (some 0) 0, .success]).1 =
      [.tryCreate, .unlinkStale, .sleepBackoff 40, .tryCreate, .writeMeta,
       .runCritical, .releaseLock] ∧
    (withWriteLock (fun (l : String) => l ++ "x") "log" 0
        [.eexist 0 40000 (some 0) 0, .success]).1 ≠
      [.tryCreate, .unlinkStale, .tryCreate, .writeMeta, .runCritical,
       .releaseLock] := by
  decide

/-- C5 (amended): in the lock-acquisition loop, when exclusive creation
fails because the marker exists, the loop first fails with the
`LockTimeout` condition if the total elapsed wait exceeds the maximum;
otherwise it best-effort deletes the marker exactly when the marker is
older than the staleness threshold, and in either case sleeps a short
randomized backoff before the next creation attempt. -/
theorem withWriteLock_retry_spec {σ : Type} (fn : σ → σ) (s : σ)
    (start tCheck tStale : Int) (mt : Option Int) (j : Int)
    (rest : List LockAttempt) :
    (tCheck - start > MAX_LOCK_WAIT_MS →
      withWriteLock fn s start (.eexist tCheck tStale mt j :: rest) =
        ([.tryCreate], .timeout, s)) ∧
    (tCheck - start ≤ MAX_LOCK_WAIT_MS → ∀ m, mt = some m →
      tStale - m > STALE_LOCK_MS →
      withWriteLock fn s start (.eexist tCheck tStale mt j :: rest) =
        (.tryCreate :: .unlinkStale :: .sleepBackoff (40 + j) ::
            (withWriteLock fn s start rest).1,
         (withWriteLock fn s start rest).2.1,
         (withWriteLock fn s start rest).2.2)) ∧
    (tCheck - start ≤ MAX_LOCK_WAIT_MS →
      (∀ m, mt = some m → tStale - m ≤ STALE_LOCK_MS) →
      withWriteLock fn s start (.eexist tCheck tStale mt j :: rest) =
        (.tryCreate :: .sleepBackoff (40 + j) ::
            (withWriteLock fn s start rest).1,
         (withWriteLock fn s start rest).2.1,
         (withWriteLock fn s start rest).2.2)) := by
  refine ⟨(withWriteLock_eexist_spec fn s start tCheck tStale mt j rest).1,
    ?_, ?_⟩
  · intro h m hm hst
    have := (withWriteLock_eexist_spec fn s start tCheck tStale mt j rest).2 h
    rw [this, (maybeBreakStaleLock_spec tStale mt).1 m hm hst]
    rfl
  · intro h hfresh
    have heq := (withWriteLock_eexist_spec fn s start tCheck tStale mt j rest).2 h
    cases hmt : mt with
    | none =>
      rw [hmt] at heq
      rw [heq, (maybeBreakStaleLock_spec tStale none).2.2 rfl]
      rfl
    | some m =>
      rw [hmt] at heq
      rw [heq, (maybeBreakStaleLock_spec tStale (some m)).2.1 m rfl (hfresh m hmt)]
      rfl

theorem withWriteLock_retry_spec_witness :
    withWriteLock (fun (l : String) => l ++ "x") "log" 0
        [.eexist 6000 6000 none 0] = ([.tryCreate], .timeout, "log") :=
  (withWriteLock_retry_spec (fun (l : String) => l ++ "x") "log" 0 6000 6000
    none 0 []).1 (by decide)

theorem withWriteLock_timeout_state {σ : Type} (fn : σ → σ) (s : σ)
    (start : Int) :
    ∀ trace : List LockAttempt,
      (withWriteLock fn s start trace).2.1 = .timeout →
        (withWriteLock fn s start trace).2.2 = s ∧
        LockAction.runCritical ∉ (withWriteLock fn s start trace).1 := by
  intro trace
  induction trace with
  | nil => intro h; simp [withWriteLock] at h
  | cons a rest ih =>
    cases a with
    | success => intro h; simp [withWriteLock] at h
    | ioError => intro h; simp [withWriteLock] at h
    | eexist tCheck tStale mt j =>
      intro h
      by_cases ht : tCheck - start > MAX_LOCK_WAIT_MS
      · rw [(withWriteLock_eexist_spec fn s start tCheck tStale mt j rest).1 ht]
        simp
      · have hle : tCheck - start ≤ MAX_LOCK_WAIT_MS := by omega
        have heq :=
          (withWriteLock_eexist_spec fn s start tCheck tStale mt j rest).2 hle
        rw [heq] at h ⊢
        simp only at h
        obtain ⟨hs, hmem⟩ := ih h
        refine ⟨hs, fun hin => ?_⟩
        rcases List.mem_cons.mp hin with h1 | h2
        · cases h1
        rcases List.mem_append.mp h2 with h3 | h4
        · cases mt with
          | none => simp [maybeBreakStaleLock] at h3
          | some m =>
            by_cases hst : tStale - m > STALE_LOCK_MS
            · simp [maybeBreakStaleLock, hst] at h3
            · simp [maybeBreakStaleLock, hst] at h3
        rcases List.mem_cons.mp h4 with h5 | h6
        · cases h5
        · exact hmem h6

/-- C9: a write operation whose lock acquisition times out fails with the
`LockTimeout` condition and leaves the log unmodified; the critical
section (the append and the index update inside it) is never executed. -/
theorem appendEntry_lockTimeout (line log : String) (start : Int)
    (trace : List LockAttempt) :
    (appendEntryLog line log start trace).2.1 = .timeout →
      (appendEntryLog line log start trace).2.2 = log ∧
      LockAction.runCritical ∉ (appendEntryLog line log start trace).1 :=
  withWriteLock_timeout_state (fun l => l ++ line ++ "\n") log start trace

theorem appendEntry_lockTimeout_witness :
    (appendEntryLog "e" "log" 0 [.eexist 6000 6000 none 0]).2.2 = "log" ∧
    LockAction.runCritical ∉
      (appendEntryLog "e" "log" 0 [.eexist 6000 6000 none 0]).1 :=
  appendEntry_lockTimeout "e" "log" 0 [.eexist 6000 6000 none 0] (by decide)

/-! ## Session-index fast path eligibility (claim C8) -/

/-- C8: the index answers a session-listing query only when the query has
no agent filter, no `since` filter and does not request the synthetic
no-session bucket; conversely, under those conditions it does answer
whenever a signature-valid index is loadable; and when any of the
conditions fails the query takes the full-scan path. -/
theorem sessionList_fastPath_spec (env : DateEnv) (w : ListWorld)
    (options : ListOptions) :
    ((buildSessionListResult env w options).1 = .indexFast →
      ¬ jsTruthy options.agent ∧ ¬ jsTruthy options.since ∧
        options.includeUnsessioned = false) ∧
    (¬ jsTruthy options.agent → ¬ jsTruthy options.since →
      options.includeUnsessioned = false →
      ∀ sig index, makeFileSignature w.stat = some sig →
        loadSessionIndex w.storedIndex (some sig) = some index →
        (buildSessionListResult env w options).1 = .indexFast) ∧
    (¬ (¬ jsTruthy options.agent ∧ ¬ jsTruthy options.since ∧
        options.includeUnsessioned = false) →
      (buildSessionListResult env w options).1 = .fullScan) := by
  by_cases hc : ¬ jsTruthy options.agent ∧ ¬ jsTruthy options.since ∧
      options.includeUnsessioned = false
  · refine ⟨fun _ => hc, ?_, fun hn => absurd hc hn⟩
    intro _ _ _ sig index hsig hload
    simp only [buildSessionListResult, if_pos hc, hsig, hload]
  · refine ⟨?_, ?_, ?_⟩
    · intro h
      exfalso
      simp only [buildSessionListResult, if_neg hc] at h
      exact absurd h (by simp)
    · intro h1 h2 h3
      exact absurd ⟨h1, h2, h3⟩ hc
    · intro _
      simp only [buildSessionListResult, if_neg hc]

def fastWorldStat : Stat := { size := 1, mtimeMs := 0 }

def fastWorldIndex : SessionIndex :=
  { makeSessionIndexSkeleton (some "1:0") with next_file_index := 1 }

def fastWorld : ListWorld :=
  { stat := some fastWorldStat, storedIndex := some fastWorldIndex,
    entries := [], parseErrors := [], readSignature := some "1:0" }

def plainListOptions : ListOptions := { project := "shared" }

theorem sessionList_fastPath_spec_witness :
    (buildSessionListResult envW fastWorld plainListOptions).1 =
      ListPath.indexFast :=
  (sessionList_fastPath_spec envW fastWorld plainListOptions).2.1
    (by decide) (by decide) rfl "1:0" fastWorldIndex (by decide) rfl

/-! ## `choose_session` argument validation (claim C10) -/

/-- C10: `choose_session` demands exactly one of `index` and `session_id`.
With neither, or with both, it fails with a validation error and performs
no filesystem effect: the log is neither statted nor read, no session is
selected, and the Active Session Pointer is not written. -/
theorem chooseSession_requires_exactly_one (env : DateEnv) (w : ListWorld)
    (args : ChooseArgs) :
    (args.index = none → args.session_id = none →
      chooseSession env w args =
        (noChooseEffects,
         .error "choose_session requires either index or session_id")) ∧
    (∀ i s, args.index = some i → args.session_id = some s →
      1 ≤ i → i ≤ 200 →
      chooseSession env w args =
        (noChooseEffects,
         .error "choose_session accepts either index or session_id, not both")) ∧
    (∀ i, args.index = some i → i < 1 ∨ 200 < i →
      chooseSession env w args =
        (noChooseEffects, .error "index must be between 1 and 200")) := by
  refine ⟨?_, ?_, ?_⟩
  · intro hi hs
    simp [chooseSession, validateChooseIndex, hi, hs]
  · intro i s hi hs h1 h2
    have hr : ¬ (i < 1 ∨ 200 < i) := by omega
    simp [chooseSession, validateChooseIndex, hi, hs, hr]
  · intro i hi hr
    simp [chooseSession, validateChooseIndex, hi, hr]

def emptyChooseArgs : ChooseArgs := { listOptions := plainListOptions }

theorem chooseSession_requires_exactly_one_witness :
    chooseSession envW fastWorld emptyChooseArgs =
      (noChooseEffects,
       .error "choose_session requires either index or session_id") :=
  (chooseSession_requires_exactly_one envW fastWorld emptyChooseArgs).1 rfl rfl

/-! ## Session summary ordering (claim C3) -/

theorem charListLt_irrefl : ∀ l : List Char, charListLt l l = false := by
  intro l
  induction l with
  | nil => rfl
  | cons c rest ih => simp [charListLt, ih]

theorem charListLt_cons_iff (x y : Char) (xs ys : List Char) :
    charListLt (x :: xs) (y :: ys) = true ↔
      (x.toNat < y.toNat ∨ (x.toNat = y.toNat ∧ charListLt xs ys = true)) := by
  simp only [charListLt]
  split_ifs with h1 h2
  · simp [h1]
  · constructor
    · intro h; cases h
    · rintro (h | ⟨h, _⟩) <;> omega
  · have hxy : x.toNat = y.toNat := by omega
    constructor
    · intro h; exact Or.inr ⟨hxy, h⟩
    · rintro (h | ⟨_, h⟩)
      · omega
      · exact h

theorem charListLt_trans :
    ∀ a b c : List Char, charListLt a b = true → charListLt b c = true →
      charListLt a c = true := by
  intro a
  induction a with
  | nil =>
    intro b c hab hbc
    cases b with
    | nil => exact absurd hab (by simp [charListLt])
    | cons y ys =>
      cases c with
      | nil => exact absurd hbc (by simp [charListLt])
      | cons z zs => simp [charListLt]
  | cons x xs ih =>
    intro b c hab hbc
    cases b with
    | nil => exact absurd hab (by simp [charListLt])
    | cons y ys =>
      cases c with
      | nil => exact absurd hbc (by simp [charListLt])
      | cons z zs =>
        rw [charListLt_cons_iff] at hab hbc ⊢
        rcases hab with h1 | ⟨h1, h1'⟩
        · rcases hbc with h2 | ⟨h2, _⟩
          · exact Or.inl (by omega)
          · exact Or.inl (by omega)
        · rcases hbc with h2 | ⟨h2, h2'⟩
          · exact Or.inl (by omega)
          · exact Or.inr ⟨by omega, ih ys zs h1' h2'⟩

theorem charListLt_antisymm_eq :
    ∀ a b : List Char, charListLt a b = false → charListLt b a = false →
      a = b := by
  intro a
  induction a with
  | nil =>
    intro b hab _
    cases b with
    | nil => rfl
    | cons y ys => exact absurd hab (by simp [charListLt])
  | cons x xs ih =>
    intro b hab hba
    cases b with
    | nil => exact absurd hba (by simp [charListLt])
    | cons y ys =>
      rw [Bool.eq_false_iff, Ne, charListLt_cons_iff] at hab hba
      push_neg at hab hba
      obtain ⟨h1, h2⟩ := hab
      obtain ⟨h3, h4⟩ := hba
      have hxy : x.toNat = y.toNat := by omega
      have hchar : x = y := by
        apply Char.ext
        apply UInt32.ext
        simpa [Char.toNat, UInt32.toNat] using hxy
      have htail : xs = ys :=
        ih ys (Bool.eq_false_iff.mpr (h2 hxy)) (Bool.eq_false_iff.mpr (h4 hxy.symm))
      rw [hchar, htail]

theorem jsStrLt_irrefl (a : String) : jsStrLt a a = false :=
  charListLt_irrefl a.data

theorem jsStrLt_trans {a b c : String} (hab : jsStrLt a b = true)
    (hbc : jsStrLt b c = true) : jsStrLt a c = true :=
  charListLt_trans a.data b.data c.data hab hbc

theorem jsStrLt_antisymm_eq {a b : String} (hab : jsStrLt a b = false)
    (hba : jsStrLt b a = false) : a = b :=
  String.ext (charListLt_antisymm_eq a.data b.data hab hba)

/-- Strict order on `Option Int` where `none` is negative infinity (the
order under which `getSummaryLatestTsMs` results are compared). -/
def tsLtB : Option Int → Option Int → Prop
  | none, none => False
  | none, some _ => True
  | some _, none => False
  | some a, some b => a < b

theorem tsLtB_irrefl (x : Option Int) : ¬ tsLtB x x := by
  cases x <;> simp [tsLtB]

theorem tsLtB_trans {x y z : Option Int} (h1 : tsLtB x y) (h2 : tsLtB y z) :
    tsLtB x z := by
  cases x <;> cases y <;> cases z <;> first
    | (simp_all [tsLtB]; omega)
    | simp_all [tsLtB]

theorem tsLtB_trichotomy (x y : Option Int) : tsLtB x y ∨ x = y ∨ tsLtB y x := by
  cases x <;> cases y <;> first
    | (simp [tsLtB]; omega)
    | simp [tsLtB]

/-- The spec's description of the session listing order: most recent
timestamp descending, most recent file index descending, `session_id`
lexicographic ascending. -/
def sessionOrder (env : DateEnv) (a b : SessionSummary) : Prop :=
  tsLtB (getSummaryLatestTsMs env b) (getSummaryLatestTsMs env a) ∨
  (getSummaryLatestTsMs env a = getSummaryLatestTsMs env b ∧
    (b.latest_file_index < a.latest_file_index ∨
      (a.latest_file_index = b.latest_file_index ∧
        (jsStrLt a.session_id b.session_id = true ∨
          a.session_id = b.session_id))))

theorem intCmp_lt_iff (x y : Int) : intCmp x y = .lt ↔ x < y := by
  simp only [intCmp]
  split_ifs with h1 h2
  · simp [h1]
  · constructor
    · intro h; cases h
    · intro h; omega
  · constructor
    · intro h; cases h
    · intro h; omega

theorem intCmp_eq_iff (x y : Int) : intCmp x y = .eq ↔ x = y := by
  simp only [intCmp]
  split_ifs with h1 h2
  · constructor
    · intro h; cases h
    · intro h; omega
  · simp [h2]
  · constructor
    · intro h; cases h
    · intro h; omega

theorem optIntCmp_lt_iff (x y : Option Int) :
    optIntCmp x y = .lt ↔ tsLtB x y := by
  cases x with
  | none =>
    cases y with
    | none => simp [optIntCmp, tsLtB]
    | some b => simp [optIntCmp, tsLtB]
  | some a =>
    cases y with
    | none => simp [optIntCmp, tsLtB]
    | some b => exact intCmp_lt_iff a b

theorem optIntCmp_eq_iff (x y : Option Int) :
    optIntCmp x y = .eq ↔ x = y := by
  cases x with
  | none =>
    cases y with
    | none => simp [optIntCmp]
    | some b => simp [optIntCmp]
  | some a =>
    cases y with
    | none => simp [optIntCmp]
    | some b =>
      rw [show optIntCmp (some a) (some b) = intCmp a b from rfl,
        intCmp_eq_iff]
      simp

theorem strCmp_lt_iff (x y : String) : strCmp x y = .lt ↔ jsStrLt x y = true := by
  simp only [strCmp]; split_ifs <;> simp_all

theorem strCmp_eq_iff (x y : String) : strCmp x y = .eq ↔ x = y := by
  simp only [strCmp]
  split_ifs with h1 h2
  · constructor
    · intro h; cases h
    · intro h; rw [h] at h1; exact absurd h1 (by simp [jsStrLt_irrefl])
  · simp [h2]
  · simp [h2]

/-- The comparator's non-strict order coincides with the spec's order. -/
theorem summaryLe_iff (env : DateEnv) (a b : SessionSummary) :
    summaryLe env a b ↔ sessionOrder env a b := by
  unfold summaryLe summaryCmp
  by_cases hts : getSummaryLatestTsMs env b = getSummaryLatestTsMs env a
  · rw [if_neg (not_not_intro hts)]
    by_cases hidx : b.latest_file_index = a.latest_file_index
    · rw [if_neg (not_not_intro hidx)]
      constructor
      · intro h
        refine Or.inr ⟨hts.symm, Or.inr ⟨hidx.symm, ?_⟩⟩
        cases hcmp : strCmp a.session_id b.session_id with
        | lt => exact Or.inl ((strCmp_lt_iff _ _).mp hcmp)
        | eq => exact Or.inr ((strCmp_eq_iff _ _).mp hcmp)
        | gt => exact absurd hcmp h
      · intro h
        rcases h with h | ⟨_, h⟩
        · rw [hts] at h
          exact absurd h (tsLtB_irrefl _)
        · rcases h with h | ⟨_, h⟩
          · omega
          · rcases h with h | h
            · rw [(strCmp_lt_iff _ _).mpr h]
              simp
            · rw [(strCmp_eq_iff _ _).mpr h]
              simp
    · rw [if_pos hidx]
      constructor
      · intro h
        cases hcmp : intCmp b.latest_file_index a.latest_file_index with
        | lt => exact Or.inr ⟨hts.symm, Or.inl ((intCmp_lt_iff _ _).mp hcmp)⟩
        | eq => exact absurd ((intCmp_eq_iff _ _).mp hcmp) hidx
        | gt => exact absurd hcmp h
      · intro h
        rcases h with h | ⟨_, h⟩
        · rw [hts] at h
          exact absurd h (tsLtB_irrefl _)
        · rcases h with h | ⟨he, _⟩
          · rw [(intCmp_lt_iff _ _).mpr h]
            simp
          · exact absurd he.symm hidx
  · rw [if_pos hts]
    constructor
    · intro h
      cases hcmp : optIntCmp (getSummaryLatestTsMs env b)
          (getSummaryLatestTsMs env a) with
      | lt => exact Or.inl ((optIntCmp_lt_iff _ _).mp hcmp)
      | eq => exact absurd ((optIntCmp_eq_iff _ _).mp hcmp) hts
      | gt => exact absurd hcmp h
    · intro h
      rcases h with h | ⟨he, _⟩
      · rw [(optIntCmp_lt_iff _ _).mpr h]
        simp
      · exact absurd he.symm hts

theorem sessionOrder_trans (env : DateEnv) :
    ∀ a b c : SessionSummary, sessionOrder env a b → sessionOrder env b c →
      sessionOrder env a c := by
  intro a b c hab hbc
  rcases hab with hab | ⟨habe, habr⟩
  · rcases hbc with hbc | ⟨hbce, _⟩
    · exact Or.inl (tsLtB_trans hbc hab)
    · exact Or.inl (hbce ▸ hab)
  · rcases hbc with hbc | ⟨hbce, hbcr⟩
    · exact Or.inl (habe ▸ hbc)
    · refine Or.inr ⟨habe.trans hbce, ?_⟩
      rcases habr with habi | ⟨habie, habs⟩
      · rcases hbcr with hbci | ⟨hbcie, _⟩
        · exact Or.inl (lt_trans hbci habi)
        · exact Or.inl (hbcie ▸ habi)
      · rcases hbcr with hbci | ⟨hbcie, hbcs⟩
        · exact Or.inl (habie ▸ hbci)
        · refine Or.inr ⟨habie.trans hbcie, ?_⟩
          rcases habs with habs | habs
          · rcases hbcs with hbcs | hbcs
            · exact Or.inl (jsStrLt_trans habs hbcs)
            · exact Or.inl (hbcs ▸ habs)
          · rcases hbcs with hbcs | hbcs
            · exact Or.inl (habs ▸ hbcs)
            · exact Or.inr (habs.trans hbcs)

theorem sessionOrder_total (env : DateEnv) :
    ∀ a b : SessionSummary, sessionOrder env a b ∨ sessionOrder env b a := by
  intro a b
  rcases tsLtB_trichotomy (getSummaryLatestTsMs env b)
      (getSummaryLatestTsMs env a) with h | h | h
  · exact Or.inl (Or.inl h)
  · rcases Int.lt_trichotomy b.latest_file_index a.latest_file_index
      with hi | hi | hi
    · exact Or.inl (Or.inr ⟨h.symm, Or.inl hi⟩)
    · cases hlt : jsStrLt a.session_id b.session_id with
      | true =>
        exact Or.inl (Or.inr ⟨h.symm, Or.inr ⟨hi.symm, Or.inl hlt⟩⟩)
      | false =>
        cases hlt' : jsStrLt b.session_id a.session_id with
        | true => exact Or.inr (Or.inr ⟨h, Or.inr ⟨hi, Or.inl hlt'⟩⟩)
        | false =>
          exact Or.inl (Or.inr ⟨h.symm, Or.inr
            ⟨hi.symm, Or.inr (jsStrLt_antisymm_eq hlt hlt')⟩⟩)
    · exact Or.inr (Or.inr ⟨h, Or.inl hi⟩)
  · exact Or.inr (Or.inl h)

instance (env : DateEnv) : IsTrans SessionSummary (summaryLe env) :=
  ⟨fun a b c hab hbc => (summaryLe_iff env a c).mpr
    (sessionOrder_trans env a b c ((summaryLe_iff env a b).mp hab)
      ((summaryLe_iff env b c).mp hbc))⟩

instance (env : DateEnv) : IsTotal SessionSummary (summaryLe env) :=
  ⟨fun a b => by
    rcases sessionOrder_total env a b with h | h
    · exact Or.inl ((summaryLe_iff env a b).mpr h)
    · exact Or.inr ((summaryLe_iff env b a).mpr h)⟩

/-- The date environment of the claim's concrete example (timestamps `T`
and `T-1` become 1000 and 999). -/
def envC3 : DateEnv :=
  { parse := fun s =>
      if s = "t999" then some 999 else if s = "t1000" then some 1000 else none
    toIso := fun ms => "iso" ++ toString ms }

/-- A note entry of the concrete example. -/
def entryC3 (sid ts : String) : Entry :=
  { ts := some ts, kind := some "note", project := some "p",
    agent := some "a", session_id := some sid }

/-- The concrete log of the claim: session A has latest (ts=T, idx=3),
session B has latest (ts=T, idx=5), session C has (ts=T-1, idx=0). -/
def entriesC3 : List Entry :=
  [entryC3 "C" "t999", entryC3 "A" "t1000", entryC3 "B" "t1000",
   entryC3 "A" "t1000", entryC3 "B" "t1000", entryC3 "B" "t1000"]

/-- C3: session summarization sorts the session groups by most recent
timestamp descending, then most recent file index descending, then
`session_id` ascending (the output is a permutation of the groups that is
sorted under `sessionOrder`); in particular, for sessions A (ts=T, idx=3),
B (ts=T, idx=5), C (ts=T-1) the output order is [B, A, C]. -/
theorem buildSessionSummaries_sorted (env : DateEnv) (entries : List Entry)
    (includeUnsessioned : Bool) :
    List.Sorted (sessionOrder env)
      (buildSessionSummaries env entries includeUnsessioned) ∧
    (buildSessionSummaries env entries includeUnsessioned).Perm
      ((buildSessionGroups env [] 0 includeUnsessioned entries).map
        (fun p => { p.2 with agents := sortStrings p.2.agents })) ∧
    (buildSessionSummaries envC3 entriesC3 false).map
      (fun s => s.session_id) = ["B", "A", "C"] := by
  refine ⟨?_, ?_, by decide⟩
  · have h := List.sorted_insertionSort (summaryLe env)
      ((buildSessionGroups env [] 0 includeUnsessioned entries).map
        (fun p => { p.2 with agents := sortStrings p.2.agents }))
    exact h.imp (fun hab => (summaryLe_iff env _ _).mp hab)
  · exact List.perm_insertionSort (summaryLe env) _

/-! ## Index rebuild vs. incremental maintenance (claim C1) -/

theorem applyEntryToSessionIndex_setSig (env : DateEnv) (x : Option String)
    (index : SessionIndex) (entry : Entry) (fileIndex : Int) :
    applyEntryToSessionIndex env { index with context_signature := x }
        entry fileIndex =
      { applyEntryToSessionIndex env index entry fileIndex with
          context_signature := x } := by
  unfold applyEntryToSessionIndex
  cases normalizeSessionId entry.session_id <;> split_ifs <;> rfl

theorem applyEntryToSessionIndex_next (env : DateEnv) (index : SessionIndex)
    (entry : Entry) (fileIndex : Int) (h : 0 ≤ fileIndex) :
    (applyEntryToSessionIndex env index entry fileIndex).next_file_index =
      max index.next_file_index (fileIndex + 1) := by
  unfold applyEntryToSessionIndex
  rw [if_pos h]
  cases normalizeSessionId entry.session_id <;> rfl

theorem buildIndexAux_setSig (env : DateEnv) (x : Option String) :
    ∀ (l : List Entry) (index : SessionIndex) (i : Nat),
      buildIndexAux env { index with context_signature := x } i l =
        { buildIndexAux env index i l with context_signature := x } := by
  intro l
  induction l with
  | nil => intro index i; rfl
  | cons e rest ih =>
    intro index i
    simp only [buildIndexAux]
    rw [applyEntryToSessionIndex_setSig, ih]

theorem buildIndexAux_next (env : DateEnv) :
    ∀ (l : List Entry) (i : Nat) (index : SessionIndex),
      index.next_file_index = (i : Int) →
        (buildIndexAux env index i l).next_file_index =
          ((i : Int) + l.length) := by
  intro l
  induction l with
  | nil => intro i index h; simpa [buildIndexAux] using h
  | cons e rest ih =>
    intro i index h
    simp only [buildIndexAux]
    have hstep : (applyEntryToSessionIndex env index e (i : Int)).next_file_index =
        ((i + 1 : Nat) : Int) := by
      rw [applyEntryToSessionIndex_next env index e (i : Int) (by positivity), h]
      push_cast
      omega
    rw [ih (i + 1) _ hstep]
    push_cast [List.length_cons]
    omega

theorem buildIndexAux_append (env : DateEnv) :
    ∀ (l1 l2 : List Entry) (index : SessionIndex) (i : Nat),
      buildIndexAux env index i (l1 ++ l2) =
        buildIndexAux env (buildIndexAux env index i l1) (i + l1.length) l2 := by
  intro l1
  induction l1 with
  | nil => intro l2 index i; simp [buildIndexAux]
  | cons e rest ih =>
    intro l2 index i
    simp only [List.cons_append, buildIndexAux, List.append_eq]
    rw [ih]
    congr 1
    simp [List.length_cons]
    omega

theorem buildSessionIndexFromEntries_eq_aux (env : DateEnv)
    (entries : List Entry) (sig : Option String) :
    buildSessionIndexFromEntries env entries sig =
      buildIndexAux env (makeSessionIndexSkeleton sig) 0 entries := by
  unfold buildSessionIndexFromEntries
  have hn := buildIndexAux_next env entries 0 (makeSessionIndexSkeleton sig) rfl
  rw [if_neg]
  rw [hn]
  push_cast
  omega

theorem buildSessionIndexFromEntries_next (env : DateEnv)
    (entries : List Entry) (sig : Option String) :
    (buildSessionIndexFromEntries env entries sig).next_file_index =
      (entries.length : Int) := by
  rw [buildSessionIndexFromEntries_eq_aux]
  have hn := buildIndexAux_next env entries 0 (makeSessionIndexSkeleton sig) rfl
  rw [hn]
  push_cast
  omega

theorem buildSessionIndexFromEntries_setSig (env : DateEnv)
    (entries : List Entry) (x y : Option String) :
    buildSessionIndexFromEntries env entries x =
      { buildSessionIndexFromEntries env entries y with
          context_signature := x } := by
  rw [buildSessionIndexFromEntries_eq_aux, buildSessionIndexFromEntries_eq_aux]
  have hx : makeSessionIndexSkeleton x =
      { makeSessionIndexSkeleton y with context_signature := x } := rfl
  rw [hx, buildIndexAux_setSig]

theorem tryUpdate_eq_applyEntry (env : DateEnv) (idx : SessionIndex)
    (sigA : String) (e : Entry) (n : Nat)
    (hn : idx.next_file_index = (n : Int)) :
    tryUpdateSessionIndexOnAppend env idx sigA e =
      applyEntryToSessionIndex env
        { idx with context_signature := some sigA } e (n : Int) := by
  simp only [tryUpdateSessionIndexOnAppend]
  rw [hn]
  rw [if_pos (show (0 : Int) ≤ (n : Int) from Int.natCast_nonneg n)]
  have happly := applyEntryToSessionIndex_next env
    (SessionIndex.mk idx.version (some sigA) (n : Int) idx.projects) e
    (n : Int) (Int.natCast_nonneg n)
  rw [if_neg (by rw [happly]; omega)]

/-- One append-time update applied to the from-scratch index of the log so
far equals the from-scratch index of the log with the entry appended
(stamped with the after-signature). -/
theorem tryUpdate_build_append (env : DateEnv) (pre : List Entry)
    (e : Entry) (sig₀ : Option String) (sigA : String) :
    tryUpdateSessionIndexOnAppend env
        (buildSessionIndexFromEntries env pre sig₀) sigA e =
      buildSessionIndexFromEntries env (pre ++ [e]) (some sigA) := by
  rw [tryUpdate_eq_applyEntry env _ sigA e pre.length
    (buildSessionIndexFromEntries_next env pre sig₀)]
  rw [← buildSessionIndexFromEntries_setSig env pre (some sigA) sig₀]
  rw [buildSessionIndexFromEntries_eq_aux env (pre ++ [e]) (some sigA),
    buildIndexAux_append env pre [e] (makeSessionIndexSkeleton (some sigA)) 0,
    ← buildSessionIndexFromEntries_eq_aux]
  simp [buildIndexAux]

/-- C1: building the session index from scratch over the whole log yields
the same per-session Session Summaries (the `projects` map) and the same
next file index as starting from the from-scratch index of the log's
prefix and folding each appended entry one at a time through the
append-time update path. -/
theorem sessionIndex_incremental_equiv (env : DateEnv) :
    ∀ (suf pre : List Entry) (sig₀ : Option String) (sigOf : Nat → String)
      (k : Nat),
      (incrementalIndexFold env sigOf
          (buildSessionIndexFromEntries env pre sig₀) k suf).projects =
        (buildSessionIndexFromEntries env (pre ++ suf) sig₀).projects ∧
      (incrementalIndexFold env sigOf
          (buildSessionIndexFromEntries env pre sig₀) k suf).next_file_index =
        (((pre ++ suf).length : Nat) : Int) := by
  intro suf
  induction suf with
  | nil =>
    intro pre sig₀ sigOf k
    constructor
    · simp [incrementalIndexFold]
    · simp only [incrementalIndexFold, List.append_nil]
      exact buildSessionIndexFromEntries_next env pre sig₀
  | cons e rest ih =>
    intro pre sig₀ sigOf k
    simp only [incrementalIndexFold]
    rw [tryUpdate_build_append env pre e sig₀ (sigOf k)]
    have h := ih (pre ++ [e]) (some (sigOf k)) sigOf (k + 1)
    constructor
    · rw [h.1]
      rw [buildSessionIndexFromEntries_setSig env ((pre ++ [e]) ++ rest)
        (some (sigOf k)) sig₀]
      simp [List.append_assoc]
    · rw [h.2]
      simp

/-! ## Read Cache torn-read protection (claim C2) -/

/-- The conditions under which one attempt of `readEntries` observes a torn
read: the cache misses, the file exists within the size bound, and the
before/after signatures both exist but disagree. -/
def tornObs (cache : ContextCache) (o : FsObs) : Prop :=
  (∃ st, o.before = some st ∧ st.size ≤ MAX_CONTEXT_FILE_BYTES) ∧
  cache.signature ≠ makeFileSignature o.before ∧
  (makeFileSignature o.after).isSome = true ∧
  makeFileSignature o.before ≠ makeFileSignature o.after

/-- Any attempt stores into the cache only a freshly parsed result whose
before and after signatures agree; otherwise the cache is returned
untouched or invalidated. -/
theorem readAttempt_ret_cases (jp : String → Except String Json)
    (cache : ContextCache) (o : FsObs) (first : Bool) (r : ReadResult)
    (c : ContextCache)
    (h : readAttempt jp cache o first = .ok (.ret r c)) :
    c = cache ∨ c = invalidateContextCache ∨
      (∃ s, makeFileSignature o.before = some s ∧
        makeFileSignature o.after = some s ∧
        c = { signature := some s, raw := o.raw,
              entries := (parseEntries jp o.raw).1,
              parseErrors := (parseEntries jp o.raw).2 }) := by
  cases hb : o.before with
  | none =>
    simp only [readAttempt, hb, makeFileSignature, Option.isSome_none,
      Bool.false_eq_true, false_and, if_false] at h
    simp only [Except.ok.injEq, AttemptOut.ret.injEq] at h
    exact Or.inr (Or.inl h.2.symm)
  | some st =>
    simp only [readAttempt, hb] at h
    by_cases hhit : ((makeFileSignature (some st)).isSome = true ∧
        cache.signature = makeFileSignature (some st))
    · rw [if_pos hhit] at h
      simp only [Except.ok.injEq, AttemptOut.ret.injEq] at h
      exact Or.inl h.2.symm
    · rw [if_neg hhit] at h
      by_cases hsize : st.size > MAX_CONTEXT_FILE_BYTES
      · rw [if_pos hsize] at h
        cases h
      · rw [if_neg hsize] at h
        by_cases htorn : ((makeFileSignature (some st)).isSome = true ∧
            (makeFileSignature o.after).isSome = true ∧
            makeFileSignature (some st) ≠ makeFileSignature o.after ∧
            first = true)
        · rw [if_pos htorn] at h
          cases h
        · rw [if_neg htorn] at h
          by_cases hstore : ((makeFileSignature o.after).isSome = true ∧
              (makeFileSignature (some st)).isSome = true ∧
              makeFileSignature (some st) = makeFileSignature o.after)
          · rw [if_pos hstore] at h
            obtain ⟨hafter, hbefore, heq⟩ := hstore
            obtain ⟨s, hs⟩ := Option.isSome_iff_exists.mp hafter
            simp only [Except.ok.injEq, AttemptOut.ret.injEq] at h
            refine Or.inr (Or.inr ⟨s, ?_, hs, ?_⟩)
            · rw [heq, hs]
            · rw [← h.2, hs]
          · rw [if_neg hstore] at h
            simp only [Except.ok.injEq, AttemptOut.ret.injEq] at h
            exact Or.inr (Or.inl h.2.symm)

/-- A torn first attempt retries (`continue`). -/
theorem readAttempt_torn_first (jp : String → Except String Json)
    (cache : ContextCache) (o : FsObs) (h : tornObs cache o) :
    readAttempt jp cache o true = .ok .tear := by
  obtain ⟨⟨st, hst, hsize⟩, hmiss, hafter, hne⟩ := h
  rw [hst] at hmiss hne
  simp only [readAttempt, hst]
  rw [if_neg (by rintro ⟨_, hsig⟩; exact hmiss hsig)]
  rw [if_neg (by omega)]
  rw [if_pos ⟨by simp [makeFileSignature], hafter, hne, by trivial⟩]

/-- A torn second attempt falls through to returning the freshly parsed
result with a `null` signature and an invalidated cache. -/
theorem readAttempt_torn_second (jp : String → Except String Json)
    (cache : ContextCache) (o : FsObs) (h : tornObs cache o) :
    readAttempt jp cache o false =
      .ok (.ret { raw := o.raw, entries := (parseEntries jp o.raw).1,
                  parseErrors := (parseEntries jp o.raw).2, signature := none }
           invalidateContextCache) := by
  obtain ⟨⟨st, hst, hsize⟩, hmiss, hafter, hne⟩ := h
  rw [hst] at hmiss hne
  simp only [readAttempt, hst]
  rw [if_neg (by rintro ⟨_, hsig⟩; exact hmiss hsig)]
  rw [if_neg (by omega)]
  rw [if_neg (by rintro ⟨-, -, -, hfalse⟩; simp at hfalse)]
  rw [if_neg (by rintro ⟨_, _, heq⟩; exact hne heq)]

/-- The retry `continue` is guarded by `attempt === 0`, so a second
attempt never tears. -/
theorem readAttempt_second_no_tear (jp : String → Except String Json)
    (cache : ContextCache) (o : FsObs) :
    readAttempt jp cache o false ≠ .ok .tear := by
  intro h
  cases hb : o.before with
  | none =>
    simp only [readAttempt, hb, makeFileSignature, Option.isSome_none,
      Bool.false_eq_true, false_and, if_false] at h
    cases h
  | some st =>
    simp only [readAttempt, hb] at h
    by_cases hhit : ((makeFileSignature (some st)).isSome = true ∧
        cache.signature = makeFileSignature (some st))
    · rw [if_pos hhit] at h
      cases h
    · rw [if_neg hhit] at h
      by_cases hsize : st.size > MAX_CONTEXT_FILE_BYTES
      · rw [if_pos hsize] at h
        cases h
      · rw [if_neg hsize] at h
        rw [if_neg (by rintro ⟨-, -, -, hfalse⟩; simp at hfalse)] at h
        by_cases hstore : ((makeFileSignature o.after).isSome = true ∧
            (makeFileSignature (some st)).isSome = true ∧
            makeFileSignature (some st) = makeFileSignature o.after)
        · rw [if_pos hstore] at h
          cases h
        · rw [if_neg hstore] at h
          cases h

/-- C2: `readEntries` populates the cache only with a result parsed from a
read whose before and after signatures agree (so the cache never pairs a
signature with content from a different file state); a torn first attempt
is retried once (the call returns the second attempt's outcome), and if
the second attempt is also torn the freshly parsed result is returned with
no signature and without populating the cache. -/
theorem readEntries_cache_spec (jp : String → Except String Json)
    (cache : ContextCache) (o₀ o₁ : FsObs) (fb : Option Stat × String)
    (r : ReadResult) (c' : ContextCache)
    (h : readEntries jp cache o₀ o₁ fb = .ok (r, c')) :
    (∀ s, c'.signature = some s → c' ≠ cache →
      ((makeFileSignature o₀.before = some s ∧
        makeFileSignature o₀.after = some s ∧ c'.raw = o₀.raw ∧
        c'.entries = (parseEntries jp o₀.raw).1 ∧
        c'.parseErrors = (parseEntries jp o₀.raw).2) ∨
       (makeFileSignature o₁.before = some s ∧
        makeFileSignature o₁.after = some s ∧ c'.raw = o₁.raw ∧
        c'.entries = (parseEntries jp o₁.raw).1 ∧
        c'.parseErrors = (parseEntries jp o₁.raw).2))) ∧
    (tornObs cache o₀ → readAttempt jp cache o₁ false = .ok (.ret r c')) ∧
    (tornObs cache o₀ → tornObs cache o₁ →
      r.raw = o₁.raw ∧ r.entries = (parseEntries jp o₁.raw).1 ∧
      r.parseErrors = (parseEntries jp o₁.raw).2 ∧ r.signature = none ∧
      c' = invalidateContextCache) := by
  refine ⟨?_, ?_, ?_⟩
  · intro s hsig hne
    unfold readEntries at h
    cases ha0 : readAttempt jp cache o₀ true with
    | error e => rw [ha0] at h; cases h
    | ok out0 =>
      rw [ha0] at h
      cases out0 with
      | ret r0 c0 =>
        simp only [Except.ok.injEq, Prod.mk.injEq] at h
        obtain ⟨-, hc⟩ := h
        rcases readAttempt_ret_cases jp cache o₀ true r0 c0 ha0 with
          h0 | h0 | ⟨s0, hb0, haf0, hc0⟩
        · exact absurd (hc ▸ h0) hne
        · rw [← hc, h0] at hsig
          cases hsig
        · left
          rw [← hc, hc0] at hsig ⊢
          simp only [Option.some.injEq] at hsig
          rw [← hsig]
          exact ⟨hb0, haf0, rfl, rfl, rfl⟩
      | tear =>
        cases ha1 : readAttempt jp cache o₁ false with
        | error e => rw [ha1] at h; cases h
        | ok out1 =>
          rw [ha1] at h
          cases out1 with
          | ret r1 c1 =>
            simp only [Except.ok.injEq, Prod.mk.injEq] at h
            obtain ⟨-, hc⟩ := h
            rcases readAttempt_ret_cases jp cache o₁ false r1 c1 ha1 with
              h1 | h1 | ⟨s1, hb1, haf1, hc1⟩
            · exact absurd (hc ▸ h1) hne
            · rw [← hc, h1] at hsig
              cases hsig
            · right
              rw [← hc, hc1] at hsig ⊢
              simp only [Option.some.injEq] at hsig
              rw [← hsig]
              exact ⟨hb1, haf1, rfl, rfl, rfl⟩
          | tear =>
            cases hfb : readRawContextFile fb with
            | error e => rw [hfb] at h; cases h
            | ok raw =>
              rw [hfb] at h
              simp only [Except.ok.injEq, Prod.mk.injEq] at h
              exact absurd h.2.symm hne
  · intro h0
    unfold readEntries at h
    rw [readAttempt_torn_first jp cache o₀ h0] at h
    cases ha1 : readAttempt jp cache o₁ false with
    | error e => rw [ha1] at h; cases h
    | ok out1 =>
      rw [ha1] at h
      cases out1 with
      | ret r1 c1 =>
        simp only [Except.ok.injEq, Prod.mk.injEq] at h
        rw [h.1, h.2]
      | tear => exact absurd ha1 (readAttempt_second_no_tear jp cache o₁)
  · intro h0 h1
    unfold readEntries at h
    rw [readAttempt_torn_first jp cache o₀ h0,
      readAttempt_torn_second jp cache o₁ h1] at h
    simp only [Except.ok.injEq, Prod.mk.injEq] at h
    obtain ⟨hr, hc⟩ := h
    rw [← hr, ← hc]
    exact ⟨rfl, rfl, rfl, rfl, rfl⟩

/-- A JSON parser stub whose every line fails to parse. -/
def jpErr : String → Except String Json :=
  fun _ => .error "SyntaxError: Unexpected token"

def tornW0 : FsObs := { before := some ⟨1, 0⟩, raw := "a", after := some ⟨2, 0⟩ }

def tornW1 : FsObs := { before := some ⟨2, 0⟩, raw := "b", after := some ⟨3, 0⟩ }

def readResultW : ReadResult :=
  { raw := "b", entries := [],
    parseErrors := [⟨1, "SyntaxError: Unexpected token"⟩], signature := none }

theorem readEntries_cache_spec_witness :
    readResultW.raw = tornW1.raw ∧
    readResultW.entries = (parseEntries jpErr tornW1.raw).1 ∧
    readResultW.parseErrors = (parseEntries jpErr tornW1.raw).2 ∧
    readResultW.signature = none ∧
    invalidateContextCache = invalidateContextCache :=
  (readEntries_cache_spec jpErr invalidateContextCache tornW0 tornW1
      (none, "") readResultW invalidateContextCache rfl).2.2
    ⟨⟨⟨1, 0⟩, rfl, by decide⟩, by decide, rfl, by decide⟩
    ⟨⟨⟨2, 0⟩, rfl, by decide⟩, by decide, rfl, by decide⟩

end ContextFlow
